import Mathlib

/-!
Verification development for the TapeImage Format (TIF) reader of
layered-file-protocols (src/src/tapeimage.cpp).

The C++ code is shallowly embedded as pure Lean functions:

* machine integers are modelled as `Nat` (the three unsigned 32-bit header
  fields, decoded little-endian from bytes, hence `< 2^32`) and `Int`
  (the `std::int64_t` offsets and counters);
* the inner stream (`lfp_protocol* fp`) is a type parameter `phi` together
  with a record `FpOps` of its three operations, mirroring the virtual
  dispatch of the C++ code; the concrete file-backed stream used by the
  scenarios is `inner_file` with `fileOps`;
* C++ exceptions are modelled by the result type `Res`, whose error
  constructor carries the reader state as mutated so far: a C++ `throw`
  does not roll back earlier member writes, and several claims are about
  exactly that;
* the unbounded `while` loops (`tapeimage::readinto`, the header chase in
  `tapeimage::seek`, the scans of `record_index::find`) take an explicit
  fuel argument and return `Res.div` when it runs out.
-/

set_option autoImplicit false
set_option linter.unusedVariables false

/-- Status codes of the lfp C API that this file needs: `LFP_OK`,
`LFP_OKINCOMPLETE`, `LFP_EOF` and `LFP_PROTOCOL_TRYRECOVERY`.
`LFP_OK` is the zero (falsy) value tested by `if (this->recovery)`. -/
inductive lfp_status where
  | ok
  | okincomplete
  | eof
  | tryrecovery
  deriving DecidableEq, Repr

/-- The exception kinds thrown by tapeimage.cpp (lfp/protocol.hpp types and
`std::invalid_argument` / `std::logic_error` / `lfp::runtime_error`). -/
inductive lfp_error where
  | unexpected_eof
  | protocol_fatal
  | protocol_failed_recovery
  | not_implemented
  | invalid_args
  | logic_error
  | runtime_error
  deriving DecidableEq, Repr

/-- `struct header`: three unsigned 32-bit fields. -/
structure header where
  type : Nat
  prev : Nat
  next : Nat
  deriving DecidableEq, Repr

/-- `header::size = 12`, used in `std::int64_t` arithmetic. -/
def header.hsize : Int := 12

/-- `class address_map`: a single `std::int64_t zero`. -/
structure address_map where
  zero : Int := 0
  deriving DecidableEq, Repr

/-- `address_map::logical(addr, record)`:
`addr - (header::size * (1 + record)) - zero`. -/
def address_map.logical (m : address_map) (addr : Int) (record : Int) : Int :=
  addr - (header.hsize * (1 + record)) - m.zero

/-- `address_map::physical(addr, record)`:
`addr + (header::size * (1 + record)) + zero`. -/
def address_map.physical (m : address_map) (addr : Int) (record : Int) : Int :=
  addr + (header.hsize * (1 + record)) + m.zero

/-- `address_map::base()`. -/
def address_map.base (m : address_map) : Int :=
  m.zero

/-- Vector indexing `index[i]` (iterator dereference); out-of-range access is
undefined behaviour in C++ and is given an arbitrary header here. -/
def headerAt (l : List header) (i : Nat) : header :=
  l.getD i ⟨0, 0, 0⟩

/-- `class read_head`: an iterator into the record index (modelled by its
position `pos`) plus `std::int64_t remaining`. -/
structure read_head where
  pos : Nat := 0
  remaining : Int := 0
  deriving DecidableEq, Repr

/-- `read_head::exhausted()`. -/
def read_head.exhausted (rh : read_head) : Bool :=
  rh.remaining == 0

/-- `read_head::bytes_left()`. -/
def read_head.bytes_left (rh : read_head) : Int :=
  rh.remaining

/-- `read_head::tell()`: `(*this)->next - remaining`. -/
def read_head.tell (rh : read_head) (l : List header) : Int :=
  ((headerAt l rh.pos).next : Int) - rh.remaining

/-- `read_head::next_record()`: position at the start of the next record. -/
def read_head.next_record (rh : read_head) (l : List header) : read_head :=
  let base : Int := ((headerAt l rh.pos).next : Int) + header.hsize
  { pos := rh.pos + 1
    remaining := ((headerAt l (rh.pos + 1)).next : Int) - base }

/-- The interface the inner stream (`lfp_protocol* fp`) provides:
`readinto` returns the bytes delivered, the count `*bytes_read`, the status
code, and the advanced stream. -/
structure FpOps (phi : Type) where
  readinto : phi → Int → List Nat × Int × lfp_status × phi
  seek : phi → Int → phi
  tell : phi → Int

/-- A concrete file-backed inner stream: a byte sequence and a position.
This is the `lfp_cfile`-like collaborator used by the literal scenarios. -/
structure inner_file where
  data : List Nat
  pos : Int
  deriving DecidableEq, Repr

/-- File-model read: deliver `min len available` bytes from the current
position; report `LFP_OK` on a full read and `LFP_EOF` otherwise. -/
def inner_file.readinto (f : inner_file) (len : Int) :
    List Nat × Int × lfp_status × inner_file :=
  let avail : Int := max 0 ((f.data.length : Int) - f.pos)
  let n : Int := max 0 (min len avail)
  let bytes := (f.data.drop f.pos.toNat).take n.toNat
  let status := if n = len then lfp_status.ok else lfp_status.eof
  (bytes, n, status, { f with pos := f.pos + n })

/-- The `FpOps` instance of the file model. -/
def fileOps : FpOps inner_file :=
  { readinto := inner_file.readinto
    seek := fun f n => { f with pos := n }
    tell := fun f => f.pos }

/-- `class tapeimage`: the reader state. -/
structure tapeimage (phi : Type) where
  addr : address_map
  fp : phi
  index : List header
  current : read_head
  recovery : lfp_status
  deriving DecidableEq, Repr

/-- Result of a reader operation: normal return, a thrown exception (the
state carries all member mutations made before the throw), or fuel
exhaustion of one of the embedded loops. -/
inductive Res (phi : Type) (alpha : Type) where
  | ok (s : tapeimage phi) (a : alpha)
  | err (s : tapeimage phi) (e : lfp_error)
  | div
  deriving DecidableEq, Repr

/-- Little-endian decode of four bytes into an unsigned 32-bit value
(`std::memcpy` into a `std::uint32_t` after the little-endian `reverse`
dance; each memory byte is reduced mod 256). -/
def u32le (b0 b1 b2 b3 : Nat) : Nat :=
  (b0 % 256) + 256 * (b1 % 256) + 65536 * (b2 % 256) + 16777216 * (b3 % 256)

/-- Decode the 12 header bytes into the three fields. -/
def decode_header (b : List Nat) : header :=
  { type := u32le (b.getD 0 0) (b.getD 1 0) (b.getD 2 0) (b.getD 3 0)
    prev := u32le (b.getD 4 0) (b.getD 5 0) (b.getD 6 0) (b.getD 7 0)
    next := u32le (b.getD 8 0) (b.getD 9 0) (b.getD 10 0) (b.getD 11 0) }

/-- The `header_type_consistent` check of `read_header_from_disk`
(tapeimage.cpp:473-492): a type other than 0/1 taints a clean reader and is
patched to 0; on an already tainted reader it throws
`protocol_failed_recovery`. -/
def tapeimage.check_type {phi : Type} (s : tapeimage phi) (head : header) :
    Res phi header :=
  if head.type = 0 ∨ head.type = 1 then
    .ok s head
  else if s.recovery ≠ .ok then
    .err s .protocol_failed_recovery
  else
    .ok { s with recovery := .tryrecovery } { head with type := 0 }

/-- The `head.next <= head.prev` check of `read_header_from_disk`
(tapeimage.cpp:494-516): throws `protocol_fatal`. -/
def tapeimage.check_order {phi : Type} (s : tapeimage phi) (head : header) :
    Res phi header :=
  if head.next ≤ head.prev then
    .err s .protocol_fatal
  else
    .ok s head

/-- The back-pointer check of `read_header_from_disk` (tapeimage.cpp:518-559):
with at least two indexed headers, `head.prev` must equal the next field of
the second-to-last header — patched on a clean reader, fatal on a tainted
one; with exactly one indexed header and a tainted reader, `head.prev`
must equal the address-map base. -/
def tapeimage.check_backlink {phi : Type} (s : tapeimage phi) (head : header) :
    Res phi header :=
  if 2 ≤ s.index.length then
    let back2 := headerAt s.index (s.index.length - 2)
    if head.prev ≠ back2.next then
      if s.recovery ≠ .ok then
        .err s .protocol_failed_recovery
      else
        .ok { s with recovery := .tryrecovery } { head with prev := back2.next }
    else
      .ok s head
  else if s.recovery ≠ .ok ∧ s.index ≠ [] then
    if (head.prev : Int) ≠ s.addr.base then
      .err s .protocol_failed_recovery
    else
      .ok s head
  else
    .ok s head

/-- `tapeimage::append` (tapeimage.cpp:630-642): push the header and point
`current` at it, with `remaining = head.next - (header::size + prior end)`. -/
def tapeimage.append {phi : Type} (s : tapeimage phi) (head : header) :
    tapeimage phi :=
  let tell : Int :=
    if s.index.isEmpty then header.hsize + s.addr.base
    else header.hsize + ((headerAt s.index (s.index.length - 1)).next : Int)
  let index := s.index ++ [head]
  { s with
    index := index
    current := { pos := index.length - 1, remaining := (head.next : Int) - tell } }

/-- `tapeimage::read_header_from_disk` (tapeimage.cpp:427-563): read 12 bytes,
decode, run the three checks in source order (type, ordering, back-link),
append, and return the appended header. -/
def tapeimage.read_header_from_disk {phi : Type} (ops : FpOps phi)
    (s : tapeimage phi) : Res phi header :=
  match ops.readinto s.fp 12 with
  | (bytes, _, errc, fp) =>
    let s := { s with fp := fp }
    match errc with
    | .okincomplete => .err s .protocol_failed_recovery
    | .eof => .err s .unexpected_eof
    | .tryrecovery => .err s .not_implemented
    | .ok =>
      let head := decode_header bytes
      match s.check_type head with
      | .err s e => .err s e
      | .div => .div
      | .ok s head =>
        match s.check_order head with
        | .err s e => .err s e
        | .div => .div
        | .ok s head =>
          match s.check_backlink head with
          | .err s e => .err s e
          | .div => .div
          | .ok s head =>
            let s := s.append head
            .ok s (headerAt s.index (s.index.length - 1))

/-- `tapeimage::eof()` (tapeimage.cpp:420-425): current header is a
file-mark (`type == tapeimage::file == 1`). -/
def tapeimage.eof {phi : Type} (s : tapeimage phi) : Bool :=
  (headerAt s.index s.current.pos).type == 1

/-- `tapeimage::read_header(read_head)` (tapeimage.cpp:399-417): parse the
next header from disk when unindexed, otherwise reposition the inner stream
at the already-indexed next record. -/
def tapeimage.read_header {phi : Type} (ops : FpOps phi) (s : tapeimage phi)
    (cur : read_head) : Res phi Unit :=
  if cur.pos + 1 = s.index.length then
    match tapeimage.read_header_from_disk ops s with
    | .ok s _ => .ok s ()
    | .err s e => .err s e
    | .div => .div
  else
    let next := cur.next_record s.index
    let fp := ops.seek s.fp (next.tell s.index)
    .ok { s with fp := fp, current := next } ()

/-- The private `tapeimage::readinto(void*, int64)` loop
(tapeimage.cpp:345-397). `acc` is `bytes_read`, `dst` the bytes copied to
the caller's buffer so far. -/
def tapeimage.readinto_go {phi : Type} (ops : FpOps phi) (fuel : Nat)
    (s : tapeimage phi) (len : Int) (acc : Int) (dst : List Nat) :
    Res phi (Int × List Nat) :=
  match fuel with
  | 0 => .div
  | Nat.succ fuel =>
    if s.eof then .ok s (acc, dst)
    else if s.current.exhausted then
      match tapeimage.read_header ops s s.current with
      | .ok s _ => tapeimage.readinto_go ops fuel s len acc dst
      | .err s e => .err s e
      | .div => .div
    else
      let to_read := min len s.current.bytes_left
      match ops.readinto s.fp to_read with
      | (bytes, n, errc, fp) =>
        let s := { s with fp := fp }
        if s.current.remaining - n < 0 then .err s .invalid_args
        else
          let s := { s with current := { s.current with remaining := s.current.remaining - n } }
          let acc := acc + n
          let dst := dst ++ bytes
          if errc = .okincomplete then .ok s (acc, dst)
          else if errc = .eof ∧ s.current.exhausted = false then .err s .unexpected_eof
          else if errc = .eof then .ok s (acc, dst)
          else if n = len then .ok s (acc, dst)
          else tapeimage.readinto_go ops fuel s (len - n) acc dst

/-- The public `tapeimage::readinto(void*, int64, int64*)`
(tapeimage.cpp:320-343): run the private loop, then report the recovery
status if non-clean, else OK / EOF / OKINCOMPLETE. -/
def tapeimage.readinto_pub {phi : Type} (ops : FpOps phi) (fuel : Nat)
    (s : tapeimage phi) (len : Int) : Res phi (Int × List Nat × lfp_status) :=
  match tapeimage.readinto_go ops fuel s len 0 [] with
  | .div => .div
  | .err s e => .err s e
  | .ok s (n, dst) =>
    let st :=
      if s.recovery ≠ .ok then s.recovery
      else if n = len then lfp_status.ok
      else if s.eof then lfp_status.eof
      else lfp_status.okincomplete
    .ok s (n, dst, st)

/-- The `std::lower_bound` loop of `record_index::find` (tapeimage.cpp:212-218)
with the comparator `addr.logical(h.next, 0) < n`. `fuel` is a structural
bound on the number of halving steps; any `fuel ≥ count` is enough. -/
def lbAux (pr : header → Bool) (l : List header) :
    Nat → Nat → Nat → Nat
  | 0, first, _ => first
  | Nat.succ fuel, first, count =>
    if count = 0 then first
    else
      let step := count / 2
      if pr (headerAt l (first + step)) then
        lbAux pr l fuel (first + step + 1) (count - (step + 1))
      else
        lbAux pr l fuel first step

/-- Phase 1 of `record_index::find`: the approximating binary search over the
whole index. -/
def record_index.lower_bound (l : List header) (m : address_map) (n : Int) : Nat :=
  lbAux (fun h => decide (m.logical (h.next : Int) 0 < n)) l l.length 0 l.length

/-- Phase 2 of `record_index::find` (tapeimage.cpp:232-243): the corrective
`std::find_if` scan from the lower bound, with the position-aware predicate
`n ≤ addr.logical(rec.next, pos)`. -/
def findIfAux (l : List header) (m : address_map) (n : Int) :
    Nat → Nat → Option Nat
  | 0, _ => none
  | Nat.succ fuel, j =>
    if j < l.length then
      if n ≤ m.logical ((headerAt l j).next : Int) (j : Int) then some j
      else findIfAux l m n fuel (j + 1)
    else none

/-- `record_index::find(n, hint)` (tapeimage.cpp:160-244): the hint fast
path, then the approximate binary search and the corrective scan; reaching
the end of the index throws `std::logic_error`. -/
def record_index.find (l : List header) (m : address_map) (n : Int)
    (hint : Nat) : Except lfp_error Nat :=
  let in_hint : Bool :=
    let e := m.logical ((headerAt l hint).next : Int) (hint : Int)
    if hint = 0 then decide (n < e)
    else
      let b := m.logical ((headerAt l (hint - 1)).next : Int) ((hint : Int) - 1)
      decide (b < n ∧ n ≤ e)
  if in_hint then .ok hint
  else
    let lower := record_index.lower_bound l m n
    match findIfAux l m n (l.length + 1) lower with
    | some j => .ok j
    | none => .error .logic_error

/-- `tapeimage::seek_with_index` (tapeimage.cpp:565-573). -/
def tapeimage.seek_with_index {phi : Type} (ops : FpOps phi)
    (s : tapeimage phi) (n : Int) : Res phi Unit :=
  match record_index.find s.index s.addr n s.current.pos with
  | .error e => .err s e
  | .ok pos =>
    let real_offset := s.addr.physical n (pos : Int)
    let fp := ops.seek s.fp real_offset
    .ok { s with
          fp := fp
          current := { pos := pos
                       remaining := ((headerAt s.index pos).next : Int) - real_offset } } ()

/-- The header-chasing `while(true)` loop of `tapeimage::seek`
(tapeimage.cpp:597-619). -/
def tapeimage.seek_go {phi : Type} (ops : FpOps phi) (fuel : Nat)
    (s : tapeimage phi) (n : Int) : Res phi Unit :=
  match fuel with
  | 0 => .div
  | Nat.succ fuel =>
    let lastPos := s.index.length - 1
    let last := headerAt s.index lastPos
    let real_offset := s.addr.physical n (lastPos : Int)
    if real_offset ≤ (last.next : Int) then
      let fp := ops.seek s.fp real_offset
      .ok { s with
            fp := fp
            current := { pos := lastPos, remaining := (last.next : Int) - real_offset } } ()
    else if last.type = 1 then
      .ok s ()
    else
      let fp := ops.seek s.fp (last.next : Int)
      match tapeimage.read_header_from_disk ops { s with fp := fp } with
      | .ok s _ => tapeimage.seek_go ops fuel s n
      | .err s e => .err s e
      | .div => .div

/-- `tapeimage::seek` (tapeimage.cpp:575-620): reject offsets above
2^32 - 1, use the index when it covers `n`, otherwise chase headers; the
assignment `current = std::prev(index.end())` before the chase goes through
the inherited iterator conversion, which default-initialises `remaining`
to 0. -/
def tapeimage.seek {phi : Type} (ops : FpOps phi) (fuel : Nat)
    (s : tapeimage phi) (n : Int) : Res phi Unit :=
  if (4294967295 : Int) < n then .err s .invalid_args
  else
    let already_indexed : Bool :=
      decide (n ≤ s.addr.logical ((headerAt s.index (s.index.length - 1)).next : Int)
                ((s.index.length : Int) - 1))
    if already_indexed then
      tapeimage.seek_with_index ops s n
    else
      let s := { s with current := { pos := s.index.length - 1, remaining := 0 } }
      tapeimage.seek_go ops fuel s n

/-- `tapeimage::tell` (tapeimage.cpp:622-628). -/
def tapeimage.tell {phi : Type} (s : tapeimage phi) : Int :=
  s.addr.logical (s.current.tell s.index) (s.current.pos : Int)

/-- The `tapeimage` constructor (tapeimage.cpp:277-303): record the inner
stream position as the address-map zero, then parse the first header. -/
def tapeimage.ctor {phi : Type} (ops : FpOps phi) (f : phi) : Res phi header :=
  let s : tapeimage phi :=
    { addr := { zero := ops.tell f }
      fp := f
      index := []
      current := {}
      recovery := .ok }
  tapeimage.read_header_from_disk ops s

/-- `lfp_tapeimage_open` (tapeimage.cpp:648-656): null inner stream or a
throwing constructor yield a null result. -/
def lfp_tapeimage_open (f : Option inner_file) : Option (tapeimage inner_file) :=
  match f with
  | none => none
  | some fp =>
    match tapeimage.ctor fileOps fp with
    | .ok s _ => some s
    | _ => none

/-- The reader state with the recovery status cleared; used to compare a
tainted run with the corresponding clean run. -/
def tapeimage.cleanOf {phi : Type} (s : tapeimage phi) : tapeimage phi :=
  { s with recovery := .ok }

/-- Body length of record `p` of an index (the payload span between the end
of the preceding header and `next`). -/
def recLen (l : List header) (m : address_map) (p : Nat) : Int :=
  if p = 0 then ((headerAt l 0).next : Int) - (header.hsize + m.base)
  else ((headerAt l p).next : Int) - (((headerAt l (p - 1)).next : Int) + header.hsize)

/-- A valid reader state at rest (spec §8): nonempty index, in-range read
head, nonnegative record bodies (hence a strictly monotone index),
`remaining` within the current record body, the inner stream positioned at
the read head, a nonnegative base, and 32-bit header fields. -/
def tapeimage.valid (s : tapeimage inner_file) : Prop :=
  s.index ≠ [] ∧
  s.current.pos < s.index.length ∧
  (∀ i, i < s.index.length - 1 →
    ((headerAt s.index i).next : Int) + 12 ≤ ((headerAt s.index (i + 1)).next : Int)) ∧
  0 ≤ s.current.remaining ∧
  s.current.remaining ≤ recLen s.index s.addr s.current.pos ∧
  s.fp.pos = s.current.tell s.index ∧
  0 ≤ s.addr.zero ∧
  (∀ h ∈ s.index, h.next < 4294967296) ∧
  header.hsize + s.addr.base ≤ ((headerAt s.index 0).next : Int)

instance tapeimage.validDecidable (s : tapeimage inner_file) :
    Decidable s.valid := by
  unfold tapeimage.valid
  infer_instance

/-- The bytes of spec scenario (1): three single-byte records
(payloads 65 66 67, i.e. ABC) followed by a file-mark. -/
def stream1_data : List Nat :=
  [0,0,0,0, 0,0,0,0, 13,0,0,0, 65,
   0,0,0,0, 0,0,0,0, 26,0,0,0, 66,
   0,0,0,0, 13,0,0,0, 39,0,0,0, 67,
   1,0,0,0, 26,0,0,0, 51,0,0,0]

/-- Scenario (1)'s inner stream, positioned at the origin. -/
def stream1 : inner_file :=
  { data := stream1_data, pos := 0 }

/-- Open a tapeimage reader on an inner file and run one public read,
returning the reported count, bytes and status. -/
def read_after_open (f : inner_file) (len : Int) :
    Option (Int × List Nat × lfp_status) :=
  match lfp_tapeimage_open (some f) with
  | some s =>
    match tapeimage.readinto_pub fileOps 20 s len with
    | .ok _ v => some v
    | _ => none
  | none => none

/-- Claim C1: on the concrete inner stream of three single-byte records
(bytes 65 66 67, i.e. ABC) followed by a file-mark, opening a reader and
reading 4 bytes returns exactly 3 bytes, namely ABC, with status EOF. -/
theorem claim_C1 : read_after_open stream1 4 = some (3, [65, 66, 67], .eof) := by
  decide

/-- Run of spec scenario (6): open on scenario (1)'s stream, read 4 bytes
(fully indexing the stream), seek to logical offset 1000 (past TIF EOF),
then read 1 byte. -/
def c8_run : Option (Int × List Nat × lfp_status) :=
  match lfp_tapeimage_open (some stream1) with
  | some s =>
    match tapeimage.readinto_pub fileOps 20 s 4 with
    | .ok s _ =>
      match tapeimage.seek fileOps 20 s 1000 with
      | .ok s _ =>
        match tapeimage.readinto_pub fileOps 20 s 1 with
        | .ok _ v => some v
        | _ => none
      | _ => none
    | _ => none
  | none => none

/-- Claim C8: after fully indexing scenario (1), `seek(1000)` succeeds
without raising (a raised error or exhausted fuel would make `c8_run`
return `none`), and the following 1-byte read returns 0 bytes with status
EOF. -/
theorem claim_C8 : c8_run = some (0, [], .eof) := by
  decide

/-- A corrupt stream refuting index monotonicity: a first header with
`next = 100`, a header at physical offset 100 with `next = 50`, and a
terminating file-mark at physical offset 50 with `prev = 100`,
`next = 150`. Every header passes all parsing checks. -/
def stream3_data : List Nat :=
  [0,0,0,0, 0,0,0,0, 100,0,0,0] ++
  List.replicate 38 0 ++
  [1,0,0,0, 100,0,0,0, 150,0,0,0] ++
  List.replicate 38 0 ++
  [0,0,0,0, 0,0,0,0, 50,0,0,0]

/-- The corrupt stream positioned at the origin. -/
def stream3 : inner_file :=
  { data := stream3_data, pos := 0 }

/-- Open a reader on the corrupt stream and seek to logical offset 200,
which chases and indexes all three headers. -/
def c3_state : Option (tapeimage inner_file) :=
  match lfp_tapeimage_open (some stream3) with
  | some s =>
    match tapeimage.seek fileOps 20 s 200 with
    | .ok s _ => some s
    | _ => none
  | none => none

set_option maxRecDepth 4000

/-- Claim C3 (failing input): constructing a reader on `stream3` and calling
`seek(200)` completes without raising, yet leaves the record index with
next fields `[100, 50, 150]` — `index[0].next = 100 > index[1].next = 50`,
violating strict monotonicity after an operation sequence that did not
raise. The code checks each header's `next` only against its own (possibly
patched) `prev`, never against the previously indexed `next`. -/
theorem claim_C3 :
    c3_state.map (fun s => s.index.map header.next) = some [100, 50, 150] ∧
    c3_state.map
      (fun s => decide ((headerAt s.index 1).next < (headerAt s.index 0).next)) =
      some true := by
  constructor
  · decide
  · decide

/-- Claim C6: the address-map operations are mutually inverse — for every
record position `p ≥ 0` and all `x, y ≥ zero + 12·(p+1)`,
`logical(physical(x, p), p) = x` and `physical(logical(y, p), p) = y`. -/
theorem claim_C6 (m : address_map) (p x y : Int) (hp : 0 ≤ p)
    (hx : m.base + 12 * (p + 1) ≤ x) (hy : m.base + 12 * (p + 1) ≤ y) :
    m.logical (m.physical x p) p = x ∧ m.physical (m.logical y p) p = y := by
  unfold address_map.logical address_map.physical
  unfold header.hsize
  constructor <;> ring

/-- Witness for C6 at `zero = 0`, `p = 0`, `x = y = 12`. -/
theorem claim_C6_witness :
    address_map.logical { zero := 0 } (address_map.physical { zero := 0 } 12 0) 0 = 12 ∧
    address_map.physical { zero := 0 } (address_map.logical { zero := 0 } 12 0) 0 = 12 :=
  claim_C6 { zero := 0 } 0 12 12 (by decide) (by decide) (by decide)

/-- Claim C2: the recovery state machine of header parsing. On a clean
reader, a header type outside {0, 1} taints the reader and is patched to
type 0 while parsing continues to the next check; the same anomaly on a
tainted reader throws `protocol_failed_recovery`. With at least two indexed
headers, a `prev` differing from the second-to-last header's `next` taints
a clean reader and is patched to that `next`; on a tainted reader it throws
`protocol_failed_recovery`. -/
theorem claim_C2 :
    (∀ (phi : Type) (s : tapeimage phi) (head : header),
        s.recovery = .ok → head.type ≠ 0 → head.type ≠ 1 →
        tapeimage.check_type s head =
          .ok { s with recovery := .tryrecovery } { head with type := 0 }) ∧
    (∀ (phi : Type) (s : tapeimage phi) (head : header),
        s.recovery ≠ .ok → head.type ≠ 0 → head.type ≠ 1 →
        tapeimage.check_type s head = .err s .protocol_failed_recovery) ∧
    (∀ (phi : Type) (s : tapeimage phi) (head : header),
        s.recovery = .ok → 2 ≤ s.index.length →
        head.prev ≠ (headerAt s.index (s.index.length - 2)).next →
        tapeimage.check_backlink s head =
          .ok { s with recovery := .tryrecovery }
             { head with prev := (headerAt s.index (s.index.length - 2)).next }) ∧
    (∀ (phi : Type) (s : tapeimage phi) (head : header),
        s.recovery ≠ .ok → 2 ≤ s.index.length →
        head.prev ≠ (headerAt s.index (s.index.length - 2)).next →
        tapeimage.check_backlink s head = .err s .protocol_failed_recovery) := by
  refine ⟨?_, ?_, ?_, ?_⟩
  · intro phi s head hrec h0 h1
    unfold tapeimage.check_type
    rw [if_neg (by simp [h0, h1]), if_neg (by simp [hrec])]
  · intro phi s head hrec h0 h1
    unfold tapeimage.check_type
    rw [if_neg (by simp [h0, h1]), if_pos hrec]
  · intro phi s head hrec h2 hprev
    unfold tapeimage.check_backlink
    rw [if_pos h2, if_pos hprev, if_neg (by simp [hrec])]
  · intro phi s head hrec h2 hprev
    unfold tapeimage.check_backlink
    rw [if_pos h2, if_pos hprev, if_pos hrec]

/-- A minimal reader state over the trivial inner stream, used to
instantiate the check-level theorems. -/
def unit_state (idx : List header) (rec : lfp_status) : tapeimage Unit :=
  { addr := {}, fp := (), index := idx, current := {}, recovery := rec }

/-- Witness for C2: all four branches at concrete states — a clean and a
tainted reader seeing type 7, and a clean and a tainted reader with index
`[next=13, next=26]` seeing `prev = 5 ≠ 13`. -/
theorem claim_C2_witness :
    tapeimage.check_type (unit_state [] .ok) ⟨7, 0, 9⟩ =
      .ok (unit_state [] .tryrecovery) ⟨0, 0, 9⟩ ∧
    tapeimage.check_type (unit_state [] .tryrecovery) ⟨7, 0, 9⟩ =
      .err (unit_state [] .tryrecovery) .protocol_failed_recovery ∧
    tapeimage.check_backlink (unit_state [⟨0, 0, 13⟩, ⟨0, 0, 26⟩] .ok) ⟨0, 5, 40⟩ =
      .ok (unit_state [⟨0, 0, 13⟩, ⟨0, 0, 26⟩] .tryrecovery) ⟨0, 13, 40⟩ ∧
    tapeimage.check_backlink (unit_state [⟨0, 0, 13⟩, ⟨0, 0, 26⟩] .tryrecovery) ⟨0, 5, 40⟩ =
      .err (unit_state [⟨0, 0, 13⟩, ⟨0, 0, 26⟩] .tryrecovery) .protocol_failed_recovery := by
  refine ⟨?_, ?_, ?_, ?_⟩
  · exact claim_C2.1 Unit (unit_state [] .ok) ⟨7, 0, 9⟩ rfl (by decide) (by decide)
  · exact claim_C2.2.1 Unit (unit_state [] .tryrecovery) ⟨7, 0, 9⟩ (by decide) (by decide) (by decide)
  · exact claim_C2.2.2.1 Unit (unit_state [⟨0, 0, 13⟩, ⟨0, 0, 26⟩] .ok) ⟨0, 5, 40⟩ rfl
      (by decide) (by decide)
  · exact claim_C2.2.2.2 Unit (unit_state [⟨0, 0, 13⟩, ⟨0, 0, 26⟩] .tryrecovery) ⟨0, 5, 40⟩
      (by decide) (by decide) (by decide)

/-- Claim C10: `lfp_tapeimage_open` returns null on a null inner stream, and
returns null whenever construction of the reader throws. -/
theorem claim_C10 :
    lfp_tapeimage_open none = none ∧
    ∀ (f : inner_file) (s : tapeimage inner_file) (e : lfp_error),
      tapeimage.ctor fileOps f = .err s e → lfp_tapeimage_open (some f) = none := by
  constructor
  · rfl
  · intro f s e h
    show (match tapeimage.ctor fileOps f with
          | .ok s _ => some s
          | _ => none) = none
    rw [h]

/-- Witness for C10: opening an empty inner stream fails during header
parsing with `unexpected_eof`, so the open returns null. -/
theorem claim_C10_witness :
    lfp_tapeimage_open (some { data := [], pos := 0 }) = none := by
  refine claim_C10.2 { data := [], pos := 0 }
    { addr := { zero := 0 }, fp := { data := [], pos := 0 }, index := [],
      current := {}, recovery := .ok } .unexpected_eof ?_
  decide

/-- A scripted inner stream over the trivial state that always delivers the
given 12 bytes with status OK: used to drive `read_header_from_disk` with a
chosen header. -/
def header_ops (b : List Nat) : FpOps Unit :=
  { readinto := fun u _ => (b, 12, .ok, u)
    seek := fun u _ => u
    tell := fun _ => 0 }

/-- Counterexample to claim C4: a header with `type = 7`, `prev = 100`,
`next = 50` parsed on a clean reader raises `protocol_fatal`, but the
reader's recovery status IS altered by the call — the type check taints the
reader (clean to tainted) before the ordering check throws, and the C++
member write is not rolled back by the exception. -/
theorem claim_C4_counterexample :
    tapeimage.read_header_from_disk (header_ops [7,0,0,0, 100,0,0,0, 50,0,0,0])
        (unit_state [] .ok) =
      .err (unit_state [] .tryrecovery) .protocol_fatal ∧
    (unit_state [] .ok).recovery = .ok ∧
    (unit_state [] .tryrecovery).recovery ≠ .ok := by
  refine ⟨by decide, by decide, by decide⟩

/-- Claim C4 (amended): for every header parsed from disk whose `next` is
less than or equal to its `prev` AND whose type is 0 or 1, parsing raises
`protocol_fatal` and the reader's recovery status is not altered (the error
state differs from the entry state only in the advanced inner stream). -/
theorem claim_C4_amended (phi : Type) (ops : FpOps phi) (s : tapeimage phi)
    (bytes : List Nat) (n : Int) (fp : phi)
    (hread : ops.readinto s.fp 12 = (bytes, n, .ok, fp))
    (htype : (decode_header bytes).type = 0 ∨ (decode_header bytes).type = 1)
    (horder : (decode_header bytes).next ≤ (decode_header bytes).prev) :
    tapeimage.read_header_from_disk ops s = .err { s with fp := fp } .protocol_fatal := by
  have h1 : tapeimage.check_type { s with fp := fp } (decode_header bytes) =
      .ok { s with fp := fp } (decode_header bytes) := by
    unfold tapeimage.check_type
    rw [if_pos htype]
  have h2 : tapeimage.check_order { s with fp := fp } (decode_header bytes) =
      .err { s with fp := fp } .protocol_fatal := by
    unfold tapeimage.check_order
    rw [if_pos horder]
  unfold tapeimage.read_header_from_disk
  rw [hread]
  simp only [h1, h2]

/-- Witness for C4 (amended) at a concrete header `type = 0`, `prev = 100`,
`next = 50` on a clean reader. -/
theorem claim_C4_witness :
    tapeimage.read_header_from_disk (header_ops [0,0,0,0, 100,0,0,0, 50,0,0,0])
        (unit_state [] .ok) =
      .err (unit_state [] .ok) .protocol_fatal :=
  claim_C4_amended Unit (header_ops [0,0,0,0, 100,0,0,0, 50,0,0,0])
    (unit_state [] .ok) [0,0,0,0, 100,0,0,0, 50,0,0,0] 12 ()
    rfl (by decide) (by decide)

/-- Counterexample driver for C5: an inner stream that delivers the two
bytes 65 66 and reports EOF alongside them. -/
def c5_ops : FpOps Unit :=
  { readinto := fun u _ => ([65, 66], 2, .eof, u)
    seek := fun u _ => u
    tell := fun _ => 0 }

/-- A clean reader with one indexed record of body length 2, neither byte
consumed yet. -/
def c5_state : tapeimage Unit :=
  { addr := {}, fp := (), index := [⟨0, 0, 14⟩],
    current := { pos := 0, remaining := 2 }, recovery := .ok }

/-- Counterexample to claim C5: the inner stream reports EOF exactly as the
Read Head becomes exhausted (2 bytes delivered, 2 remaining), yet the
public read of 5 bytes returns status OKINCOMPLETE, not EOF — the current
record is a data record, so `tapeimage::eof()` is false and the public
wrapper picks `LFP_OKINCOMPLETE` for a short read. -/
theorem claim_C5_counterexample :
    tapeimage.readinto_pub c5_ops 5 c5_state 5 =
      .ok { c5_state with current := { pos := 0, remaining := 0 } }
        (2, [65, 66], .okincomplete) ∧
    lfp_status.okincomplete ≠ lfp_status.eof := by
  refine ⟨by decide, by decide⟩

/-- Claim C5 (amended): during a read of record payload bytes, if the inner
stream reports EOF while the Read Head (after accounting for the delivered
bytes) is still not exhausted, the read fails with `unexpected_eof`; if the
inner stream reports EOF exactly when the Read Head becomes exhausted, the
read returns the byte count accumulated so far — the public status then
being the recovery status if tainted, OK if the request was satisfied
exactly, and OKINCOMPLETE otherwise (not EOF). -/
theorem claim_C5_amended (phi : Type) (ops : FpOps phi) (fuel : Nat)
    (s : tapeimage phi) (len acc : Int) (dst bytes : List Nat) (n : Int) (fp : phi)
    (heof : s.eof = false)
    (hex : s.current.exhausted = false)
    (hread : ops.readinto s.fp (min len s.current.bytes_left) = (bytes, n, .eof, fp))
    (hmove : n ≤ s.current.remaining) :
    (n < s.current.remaining →
      tapeimage.readinto_go ops (fuel + 1) s len acc dst =
        .err { s with fp := fp,
                      current := { s.current with remaining := s.current.remaining - n } }
          .unexpected_eof) ∧
    (n = s.current.remaining →
      tapeimage.readinto_go ops (fuel + 1) s len acc dst =
        .ok { s with fp := fp,
                     current := { s.current with remaining := s.current.remaining - n } }
          (acc + n, dst ++ bytes)) ∧
    (n = s.current.remaining →
      tapeimage.readinto_pub ops (fuel + 1) s len =
        .ok { s with fp := fp,
                     current := { s.current with remaining := s.current.remaining - n } }
          (n, bytes,
           if s.recovery ≠ .ok then s.recovery
           else if n = len then lfp_status.ok
           else lfp_status.okincomplete)) := by
  have hgo : ∀ acc1 : Int, ∀ dst1 : List Nat,
      tapeimage.readinto_go ops (fuel + 1) s len acc1 dst1 =
        if s.current.remaining - n = 0 then
          .ok { s with fp := fp,
                       current := { s.current with remaining := s.current.remaining - n } }
            (acc1 + n, dst1 ++ bytes)
        else
          .err { s with fp := fp,
                        current := { s.current with remaining := s.current.remaining - n } }
            .unexpected_eof := by
    intro acc1 dst1
    rw [tapeimage.readinto_go]
    rw [if_neg (by simp [heof]), if_neg (by simp [hex])]
    simp only [hread]
    rw [if_neg (by omega), if_neg (by decide)]
    by_cases hz : s.current.remaining - n = 0
    · simp [read_head.exhausted, hz]
    · simp [read_head.exhausted, hz]
  refine ⟨?_, ?_, ?_⟩
  · intro hlt
    rw [hgo acc dst, if_neg (by omega)]
  · intro heq
    rw [hgo acc dst, if_pos (by omega)]
  · intro heq
    unfold tapeimage.readinto_pub
    rw [hgo 0 []]
    rw [if_pos (by omega)]
    have heof2 : ((headerAt s.index s.current.pos).type == 1) = false := by
      simpa [tapeimage.eof] using heof
    simp [tapeimage.eof, heof2]

/-- An inner stream delivering one byte together with EOF, leaving the Read
Head non-exhausted. -/
def c5_short_ops : FpOps Unit :=
  { readinto := fun u _ => ([65], 1, .eof, u)
    seek := fun u _ => u
    tell := fun _ => 0 }

/-- Witness for C5 (amended): on the concrete one-record reader, an inner
EOF after 1 of 2 record bytes raises `unexpected_eof`, and an inner EOF
exactly at exhaustion returns the accumulated 2 bytes with public status
OKINCOMPLETE. -/
theorem claim_C5_witness :
    tapeimage.readinto_go c5_short_ops 5 c5_state 5 0 [] =
      .err { c5_state with current := { pos := 0, remaining := 1 } }
        .unexpected_eof ∧
    tapeimage.readinto_pub c5_ops 5 c5_state 5 =
      .ok { c5_state with current := { pos := 0, remaining := 0 } }
        (2, [65, 66], .okincomplete) := by
  constructor
  · exact (claim_C5_amended Unit c5_short_ops 4 c5_state 5 0 [] [65] 1 ()
      (by decide) (by decide) rfl (by decide)).1 (by decide)
  · exact (claim_C5_amended Unit c5_ops 4 c5_state 5 0 [] [65, 66] 2 ()
      (by decide) (by decide) rfl (by decide)).2.2 (by decide)

/-- A successful type check on a tainted reader leaves the state and header
untouched, and succeeds identically on the corresponding clean reader. -/
theorem check_type_clean {phi : Type} (s s2 : tapeimage phi) (head h2 : header)
    (hrec : s.recovery ≠ .ok)
    (h : tapeimage.check_type s head = .ok s2 h2) :
    s2 = s ∧ h2 = head ∧
    tapeimage.check_type s.cleanOf head = .ok s.cleanOf head := by
  unfold tapeimage.check_type at h ⊢
  by_cases ht : head.type = 0 ∨ head.type = 1
  · rw [if_pos ht] at h
    cases h
    exact ⟨rfl, rfl, by rw [if_pos ht]⟩
  · rw [if_neg ht, if_pos hrec] at h
    cases h

/-- A successful ordering check touches nothing. -/
theorem check_order_ok {phi : Type} (s s2 : tapeimage phi) (head h2 : header)
    (h : tapeimage.check_order s head = .ok s2 h2) :
    s2 = s ∧ h2 = head ∧ head.prev < head.next := by
  unfold tapeimage.check_order at h
  by_cases ho : head.next ≤ head.prev
  · rw [if_pos ho] at h
    cases h
  · rw [if_neg ho] at h
    cases h
    exact ⟨rfl, rfl, by omega⟩

/-- A successful back-link check on a tainted reader leaves the state and
header untouched, and succeeds identically on the corresponding clean
reader. -/
theorem check_backlink_clean {phi : Type} (s s2 : tapeimage phi) (head h2 : header)
    (hrec : s.recovery ≠ .ok)
    (h : tapeimage.check_backlink s head = .ok s2 h2) :
    s2 = s ∧ h2 = head ∧
    tapeimage.check_backlink s.cleanOf head = .ok s.cleanOf head := by
  unfold tapeimage.check_backlink at h ⊢
  simp only [tapeimage.cleanOf] at h ⊢
  by_cases h2le : 2 ≤ s.index.length
  · rw [if_pos h2le] at h ⊢
    by_cases hprev : head.prev ≠ (headerAt s.index (s.index.length - 2)).next
    · rw [if_pos hprev, if_pos hrec] at h
      cases h
    · rw [if_neg hprev] at h ⊢
      cases h
      exact ⟨rfl, rfl, rfl⟩
  · rw [if_neg h2le] at h ⊢
    rw [if_neg (by simp)]
    by_cases hne : s.index ≠ []
    · rw [if_pos ⟨hrec, hne⟩] at h
      by_cases hb : (head.prev : Int) ≠ s.addr.base
      · rw [if_pos hb] at h
        cases h
      · rw [if_neg hb] at h
        cases h
        exact ⟨rfl, rfl, rfl⟩
    · rw [if_neg (by simp [hne])] at h
      cases h
      exact ⟨rfl, rfl, rfl⟩

/-- A successful header parse on a tainted reader does not change the
recovery status, and the corresponding clean reader parses the same header
into the same state (up to the cleared status). -/
theorem read_header_from_disk_clean {phi : Type} (ops : FpOps phi)
    (s s2 : tapeimage phi) (h : header)
    (hrec : s.recovery ≠ .ok)
    (hok : tapeimage.read_header_from_disk ops s = .ok s2 h) :
    s2.recovery = s.recovery ∧
    tapeimage.read_header_from_disk ops s.cleanOf = .ok s2.cleanOf h := by
  unfold tapeimage.read_header_from_disk at hok ⊢
  have hfp : s.cleanOf.fp = s.fp := rfl
  rw [hfp]
  rcases hre : ops.readinto s.fp 12 with ⟨bytes, n, errc, fp⟩
  rw [hre] at hok
  cases errc
  case okincomplete => cases hok
  case eof => cases hok
  case tryrecovery => cases hok
  case ok =>
    simp only at hok ⊢
    rcases hct : tapeimage.check_type { s with fp := fp } (decode_header bytes) with
      ⟨s3, h3⟩ | ⟨s3, e3⟩ | _
    case err => rw [hct] at hok; cases hok
    case div => rw [hct] at hok; cases hok
    case ok =>
      rw [hct] at hok
      simp only at hok
      obtain ⟨hs3, hh3, hctc⟩ := check_type_clean _ _ _ _ (by simpa using hrec) hct
      subst hs3
      subst hh3
      have hcl : ({ s with fp := fp } : tapeimage phi).cleanOf =
          { s.cleanOf with fp := fp } := rfl
      rw [hcl] at hctc
      rw [hctc]
      simp only
      rcases hco : tapeimage.check_order { s with fp := fp } (decode_header bytes) with
        ⟨s4, h4⟩ | ⟨s4, e4⟩ | _
      case err => rw [hco] at hok; cases hok
      case div => rw [hco] at hok; cases hok
      case ok =>
        rw [hco] at hok
        simp only at hok
        obtain ⟨hs4, hh4, hord⟩ := check_order_ok _ _ _ _ hco
        subst hs4
        subst hh4
        have hcoc : tapeimage.check_order ({ s.cleanOf with fp := fp } : tapeimage phi)
            (decode_header bytes) = .ok { s.cleanOf with fp := fp } (decode_header bytes) := by
          unfold tapeimage.check_order
          rw [if_neg (by omega)]
        rw [hcoc]
        simp only
        rcases hcb : tapeimage.check_backlink { s with fp := fp } (decode_header bytes) with
          ⟨s5, h5⟩ | ⟨s5, e5⟩ | _
        case err => rw [hcb] at hok; cases hok
        case div => rw [hcb] at hok; cases hok
        case ok =>
          rw [hcb] at hok
          simp only at hok
          obtain ⟨hs5, hh5, hcbc⟩ := check_backlink_clean _ _ _ _ (by simpa using hrec) hcb
          subst hs5
          subst hh5
          rw [hcl] at hcbc
          rw [hcbc]
          simp only
          cases hok
          exact ⟨rfl, rfl⟩

/-- A successful `read_header` call on a tainted reader does not change the
recovery status, and the corresponding clean reader behaves identically. -/
theorem read_header_clean {phi : Type} (ops : FpOps phi)
    (s s2 : tapeimage phi) (cur : read_head)
    (hrec : s.recovery ≠ .ok)
    (hok : tapeimage.read_header ops s cur = .ok s2 ()) :
    s2.recovery = s.recovery ∧
    tapeimage.read_header ops s.cleanOf cur = .ok s2.cleanOf () := by
  unfold tapeimage.read_header at hok ⊢
  have hidx : s.cleanOf.index = s.index := rfl
  rw [hidx]
  by_cases hend : cur.pos + 1 = s.index.length
  · rw [if_pos hend] at hok ⊢
    rcases hd : tapeimage.read_header_from_disk ops s with ⟨s3, h3⟩ | ⟨s3, e3⟩ | _
    · rw [hd] at hok
      obtain ⟨hr, hc⟩ := read_header_from_disk_clean ops s s3 h3 hrec hd
      rw [hc]
      simp only at hok ⊢
      cases hok
      exact ⟨hr, rfl⟩
    · rw [hd] at hok
      cases hok
    · rw [hd] at hok
      cases hok
  · rw [if_neg hend] at hok ⊢
    cases hok
    exact ⟨rfl, rfl⟩

/-- A successful run of the private read loop on a tainted reader keeps the
recovery status, and the clean reader runs to the same bytes, count and
state (up to the cleared status). -/
theorem readinto_go_clean {phi : Type} (ops : FpOps phi) :
    ∀ (fuel : Nat) (s s2 : tapeimage phi) (len acc : Int) (dst : List Nat)
      (v : Int × List Nat),
      s.recovery ≠ .ok →
      tapeimage.readinto_go ops fuel s len acc dst = .ok s2 v →
      s2.recovery = s.recovery ∧
      tapeimage.readinto_go ops fuel s.cleanOf len acc dst = .ok s2.cleanOf v := by
  obtain ⟨rdi, sk, tl⟩ := ops
  intro fuel
  induction fuel with
  | zero =>
    intro s s2 len acc dst v hrec hok
    cases hok
  | succ fuel ih =>
    intro s s2 len acc dst v hrec hok
    obtain ⟨adr, f0, idx, cur, rec⟩ := s
    simp only [tapeimage.cleanOf] at hok ⊢
    rw [tapeimage.readinto_go] at hok ⊢
    simp only [tapeimage.eof, read_head.exhausted, read_head.bytes_left] at hok ⊢
    by_cases he : ((headerAt idx cur.pos).type == 1) = true
    · rw [if_pos he] at hok ⊢
      cases hok
      exact ⟨rfl, rfl⟩
    · rw [if_neg he] at hok ⊢
      by_cases hx : (cur.remaining == 0) = true
      · rw [if_pos hx] at hok ⊢
        rcases hrh : tapeimage.read_header ⟨rdi, sk, tl⟩ ⟨adr, f0, idx, cur, rec⟩ cur with
          ⟨s3, u3⟩ | ⟨s3, e3⟩ | _
        · rw [hrh] at hok
          simp only at hok
          cases u3
          obtain ⟨hr3, hc3⟩ :=
            read_header_clean ⟨rdi, sk, tl⟩ ⟨adr, f0, idx, cur, rec⟩ s3 cur hrec hrh
          simp only [tapeimage.cleanOf] at hc3
          rw [hc3]
          simp only
          obtain ⟨hr2, hg2⟩ := ih s3 s2 len acc dst v (by rw [hr3]; exact hrec) hok
          simp only [tapeimage.cleanOf] at hg2
          rw [hg2]
          exact ⟨by rw [hr2]; exact hr3, rfl⟩
        · rw [hrh] at hok
          cases hok
        · rw [hrh] at hok
          cases hok
      · rw [if_neg hx] at hok ⊢
        rcases hre : rdi f0 (min len cur.remaining) with ⟨bytes, n, errc, fp⟩
        simp only [hre] at hok ⊢
        by_cases hneg : cur.remaining - n < 0
        · rw [if_pos hneg] at hok
          cases hok
        · rw [if_neg hneg] at hok ⊢
          by_cases hoi : errc = lfp_status.okincomplete
          · rw [if_pos hoi] at hok ⊢
            cases hok
            exact ⟨rfl, rfl⟩
          · rw [if_neg hoi] at hok ⊢
            by_cases hue : errc = lfp_status.eof ∧ (cur.remaining - n == 0) = false
            · rw [if_pos hue] at hok
              cases hok
            · rw [if_neg hue] at hok ⊢
              by_cases hef : errc = lfp_status.eof
              · rw [if_pos hef] at hok ⊢
                cases hok
                exact ⟨rfl, rfl⟩
              · rw [if_neg hef] at hok ⊢
                by_cases hnl : n = len
                · rw [if_pos hnl] at hok ⊢
                  cases hok
                  exact ⟨rfl, rfl⟩
                · rw [if_neg hnl] at hok ⊢
                  obtain ⟨hr2, hg2⟩ :=
                    ih ⟨adr, fp, idx, ⟨cur.pos, cur.remaining - n⟩, rec⟩ s2
                      (len - n) (acc + n) (dst ++ bytes) v hrec hok
                  simp only [tapeimage.cleanOf] at hg2
                  rw [hg2]
                  exact ⟨hr2, rfl⟩

/-- Claim C9: whenever the recovery status is non-clean and the private read
loop returns, the public read reports the recovery status unconditionally —
it takes precedence over OK, EOF and OK-incomplete alike (the status
computation short-circuits before the byte-count and file-mark tests) —
while the byte count and bytes delivered are exactly those the clean reader
would deliver. -/
theorem claim_C9 (phi : Type) (ops : FpOps phi) (fuel : Nat) (s s2 : tapeimage phi)
    (len n : Int) (dst : List Nat)
    (htaint : s.recovery ≠ .ok)
    (hgo : tapeimage.readinto_go ops fuel s len 0 [] = .ok s2 (n, dst)) :
    tapeimage.readinto_pub ops fuel s len = .ok s2 (n, dst, s.recovery) ∧
    tapeimage.readinto_go ops fuel s.cleanOf len 0 [] = .ok s2.cleanOf (n, dst) := by
  obtain ⟨hr, hc⟩ := readinto_go_clean ops fuel s s2 len 0 [] (n, dst) htaint hgo
  constructor
  · unfold tapeimage.readinto_pub
    rw [hgo]
    simp only
    rw [if_pos (by rw [hr]; exact htaint), hr]
  · exact hc

/-- Witness for C9: a tainted reader positioned on a file-mark returns 0 of
3 requested bytes with status TRYRECOVERY (not EOF, not OK-incomplete),
and the clean twin returns the same 0 bytes. -/
theorem claim_C9_witness :
    tapeimage.readinto_pub (header_ops []) 1 (unit_state [⟨1, 0, 12⟩] .tryrecovery) 3 =
      .ok (unit_state [⟨1, 0, 12⟩] .tryrecovery) (0, [], .tryrecovery) ∧
    tapeimage.readinto_go (header_ops []) 1
        (unit_state [⟨1, 0, 12⟩] .tryrecovery).cleanOf 3 0 [] =
      .ok (unit_state [⟨1, 0, 12⟩] .tryrecovery).cleanOf (0, []) :=
  claim_C9 Unit (header_ops []) 1 (unit_state [⟨1, 0, 12⟩] .tryrecovery)
    (unit_state [⟨1, 0, 12⟩] .tryrecovery) 3 0 [] (by decide) (by decide)

/-- `headerAt` of an in-range position is a member of the index. -/
theorem headerAt_mem (l : List header) (i : Nat) (h : i < l.length) :
    headerAt l i ∈ l := by
  unfold headerAt
  rw [List.getD_eq_getElem l _ h]
  exact List.getElem_mem h

/-- The binary-search helper never lands after `first + count`. -/
theorem lbAux_le (pr : header → Bool) (l : List header) :
    ∀ (fuel first count : Nat), count ≤ fuel →
      lbAux pr l fuel first count ≤ first + count := by
  intro fuel
  induction fuel with
  | zero =>
    intro first count hc
    interval_cases count
    rw [lbAux]
    omega
  | succ fuel ih =>
    intro first count hc
    rw [lbAux]
    by_cases hc0 : count = 0
    · rw [if_pos hc0]
      omega
    · rw [if_neg hc0]
      by_cases hp : pr (headerAt l (first + count / 2)) = true
      · rw [if_pos hp]
        have := ih (first + count / 2 + 1) (count - (count / 2 + 1)) (by omega)
        omega
      · rw [if_neg hp]
        have := ih first (count / 2) (by omega)
        omega

/-- If the comparator rejects the last element of the range, the
binary-search helper lands strictly before `first + count`. -/
theorem lbAux_le_of_not_pred (pr : header → Bool) (l : List header) :
    ∀ (fuel first count : Nat), count ≤ fuel → 1 ≤ count →
      pr (headerAt l (first + count - 1)) = false →
      lbAux pr l fuel first count ≤ first + count - 1 := by
  intro fuel
  induction fuel with
  | zero =>
    intro first count hc h1
    omega
  | succ fuel ih =>
    intro first count hc h1 hlast
    rw [lbAux]
    rw [if_neg (by omega)]
    by_cases hp : pr (headerAt l (first + count / 2)) = true
    · rw [if_pos hp]
      by_cases hend : count / 2 = count - 1
      · rw [hend] at hp
        rw [show first + (count - 1) = first + count - 1 by omega] at hp
        rw [hlast] at hp
        cases hp
      · have := ih (first + count / 2 + 1) (count - (count / 2 + 1)) (by omega) (by omega)
          (by rw [show first + count / 2 + 1 + (count - (count / 2 + 1)) - 1 =
                first + count - 1 by omega]; exact hlast)
        omega
    · rw [if_neg hp]
      have := lbAux_le pr l fuel first (count / 2) (by omega)
      omega

/-- If the comparator rejects every element of the index, the binary search
stays at `first`. -/
theorem lbAux_all_false (pr : header → Bool) (l : List header)
    (hall : ∀ i, i < l.length → pr (headerAt l i) = false) :
    ∀ (fuel first count : Nat), first + count ≤ l.length →
      lbAux pr l fuel first count = first := by
  intro fuel
  induction fuel with
  | zero =>
    intro first count hc
    rw [lbAux]
  | succ fuel ih =>
    intro first count hc
    rw [lbAux]
    by_cases hc0 : count = 0
    · rw [if_pos hc0]
    · rw [if_neg hc0]
      simp only
      rw [hall (first + count / 2) (by omega)]
      simp only [Bool.false_eq_true, if_false]
      exact ih first (count / 2) (by omega)

/-- The corrective scan finds a position as soon as some in-range position
at or after the start satisfies the predicate. -/
theorem findIfAux_some (l : List header) (m : address_map) (n : Int) :
    ∀ (fuel start : Nat), l.length - start < fuel →
      ∀ j0, start ≤ j0 → j0 < l.length →
        n ≤ m.logical ((headerAt l j0).next : Int) (j0 : Int) →
        ∃ j, findIfAux l m n fuel start = some j := by
  intro fuel
  induction fuel with
  | zero =>
    intro start hlt
    omega
  | succ fuel ih =>
    intro start hlt j0 hs hj hp
    rw [findIfAux]
    rw [if_pos (by omega : start < l.length)]
    by_cases hp0 : n ≤ m.logical ((headerAt l start).next : Int) (start : Int)
    · rw [if_pos hp0]
      exact ⟨start, rfl⟩
    · rw [if_neg hp0]
      rcases Nat.eq_or_lt_of_le hs with heq | hlt2
      · subst heq
        exact absurd hp hp0
      · exact ih (start + 1) (by omega) j0 (by omega) hj hp

/-- Telescoped form of the nonnegative-body invariant: each later header's
next field exceeds an earlier one by at least 12 per record between them. -/
theorem next_telescope (l : List header)
    (hgap : ∀ i, i < l.length - 1 →
      ((headerAt l i).next : Int) + 12 ≤ ((headerAt l (i + 1)).next : Int)) :
    ∀ i j, i ≤ j → j < l.length →
      ((headerAt l i).next : Int) + 12 * ((j : Int) - (i : Int)) ≤
        ((headerAt l j).next : Int) := by
  intro i j hij
  induction j, hij using Nat.le_induction with
  | base =>
    intro hj
    simp
  | succ j hij ih =>
    intro hj
    have h1 := ih (by omega)
    have h2 := hgap j (by omega)
    push_cast at h1 h2 ⊢
    omega

/-- The hint fast path of `record_index::find`: a nonzero hint whose span
`(begin, end]` contains `n` is returned immediately. -/
theorem find_hint_of_pos (l : List header) (m : address_map) (n : Int) (hint : Nat)
    (h0 : hint ≠ 0)
    (hb : m.logical ((headerAt l (hint - 1)).next : Int) ((hint : Int) - 1) < n)
    (he : n ≤ m.logical ((headerAt l hint).next : Int) (hint : Int)) :
    record_index.find l m n hint = .ok hint := by
  unfold record_index.find
  simp only
  rw [if_neg h0]
  rw [if_pos (by rw [decide_eq_true_eq]; exact ⟨hb, he⟩)]

/-- The hint fast path at hint 0: if `n` is strictly below the end of the
first record, position 0 is returned immediately. -/
theorem find_hint_of_zero (l : List header) (m : address_map) (n : Int)
    (he : n < m.logical ((headerAt l 0).next : Int) 0) :
    record_index.find l m n 0 = .ok 0 := by
  unfold record_index.find
  simp only
  rw [if_pos (by rw [if_pos trivial, decide_eq_true_eq]; exact he)]

/-- The binary-search path at hint 0 with `n` exactly the end of the first
record: every comparator probe rejects, the lower bound is 0, and the scan
accepts position 0 at once. -/
theorem find_zero_end (l : List header) (m : address_map) (n : Int)
    (hne : l ≠ [])
    (heq : n = m.logical ((headerAt l 0).next : Int) 0)
    (hmono : ∀ i, i < l.length → ((headerAt l 0).next : Int) ≤ ((headerAt l i).next : Int)) :
    record_index.find l m n 0 = .ok 0 := by
  have hlen : 0 < l.length := List.length_pos.mpr hne
  unfold record_index.find
  simp only
  rw [if_neg (by rw [if_pos trivial, decide_eq_true_eq]; push_cast; omega)]
  have hlow : record_index.lower_bound l m n = 0 := by
    unfold record_index.lower_bound
    apply lbAux_all_false
    · intro i hi
      rw [decide_eq_false_iff_not]
      have := hmono i hi
      unfold address_map.logical header.hsize
      unfold address_map.logical header.hsize at heq
      omega
    · omega
  rw [hlow]
  have hfind : findIfAux l m n (l.length + 1) 0 = some 0 := by
    rw [findIfAux]
    rw [if_pos hlen]
    rw [if_pos (by rw [heq]; norm_num)]
  rw [hfind]

/-- `record_index::find` succeeds (returns some position) whenever `n` is
covered by the index, whatever the hint. -/
theorem find_ok (l : List header) (m : address_map) (n : Int) (hint : Nat)
    (hne : l ≠ [])
    (hn : n ≤ m.logical ((headerAt l (l.length - 1)).next : Int) ((l.length : Int) - 1)) :
    ∃ j, record_index.find l m n hint = .ok j := by
  have hlen : 0 < l.length := List.length_pos.mpr hne
  unfold record_index.find
  simp only
  by_cases hh : (if hint = 0 then
      decide (n < m.logical ((headerAt l hint).next : Int) (hint : Int))
    else
      decide (m.logical ((headerAt l (hint - 1)).next : Int) ((hint : Int) - 1) < n ∧
        n ≤ m.logical ((headerAt l hint).next : Int) (hint : Int))) = true
  · rw [if_pos hh]
    exact ⟨hint, rfl⟩
  · rw [if_neg hh]
    have hnotlast : decide (m.logical ((headerAt l (0 + l.length - 1)).next : Int) 0 < n) = false := by
      rw [decide_eq_false_iff_not]
      rw [show (0 + l.length - 1) = l.length - 1 by omega]
      unfold address_map.logical header.hsize
      unfold address_map.logical header.hsize at hn
      have : (1 : Int) ≤ (l.length : Int) := by exact_mod_cast hlen
      nlinarith [hn]
    have hlow : record_index.lower_bound l m n ≤ l.length - 1 := by
      unfold record_index.lower_bound
      have := lbAux_le_of_not_pred
        (fun h => decide (m.logical (h.next : Int) 0 < n)) l l.length 0 l.length
        (by omega) (by omega) hnotlast
      omega
    obtain ⟨j, hj⟩ := findIfAux_some l m n (l.length + 1) (record_index.lower_bound l m n)
      (by omega) (l.length - 1) hlow (by omega)
      (by rw [show ((l.length - 1 : Nat) : Int) = (l.length : Int) - 1 by omega]; exact hn)
    rw [hj]
    exact ⟨j, rfl⟩

/-- On a valid reader, `tell` computes to the explicit offset formula. -/
theorem tell_formula (s : tapeimage inner_file) :
    tapeimage.tell s =
      ((headerAt s.index s.current.pos).next : Int) - s.current.remaining -
        12 * (1 + (s.current.pos : Int)) - s.addr.zero := by
  unfold tapeimage.tell read_head.tell address_map.logical header.hsize
  ring

/-- Seeking to an offset covered by the index lands the reader exactly at
that logical offset: `tell` after `seek(n)` equals `n`. -/
theorem seek_tell_covered (s : tapeimage inner_file) (fuel : Nat) (n : Int)
    (hv : s.valid) (hn0 : 0 ≤ n)
    (hcov : n ≤ s.addr.logical ((headerAt s.index (s.index.length - 1)).next : Int)
      ((s.index.length : Int) - 1)) :
    match tapeimage.seek fileOps fuel s n with
    | .ok s2 _ => tapeimage.tell s2 = n
    | _ => False := by
  obtain ⟨hne, hpos, hgap, hrem0, hremL, hfp, hzero, h32, hfirst⟩ := hv
  have hlen : 0 < s.index.length := List.length_pos.mpr hne
  have hlast32 : (headerAt s.index (s.index.length - 1)).next < 4294967296 :=
    h32 _ (headerAt_mem _ _ (by omega))
  have hmax : ¬((4294967295 : Int) < n) := by
    unfold address_map.logical header.hsize at hcov
    have h1 : ((headerAt s.index (s.index.length - 1)).next : Int) < 4294967296 := by
      exact_mod_cast hlast32
    have h2 : (1 : Int) ≤ (s.index.length : Int) := by exact_mod_cast hlen
    have h3 : 12 * (1 + ((s.index.length : Int) - 1)) = 12 * (s.index.length : Int) := by ring
    omega
  unfold tapeimage.seek
  rw [if_neg hmax]
  simp only
  rw [if_pos (decide_eq_true hcov)]
  unfold tapeimage.seek_with_index
  obtain ⟨j, hj⟩ := find_ok s.index s.addr n s.current.pos hne hcov
  rw [hj]
  simp only
  rw [tell_formula]
  simp only
  unfold address_map.physical header.hsize
  ring

/-- On a valid reader whose Read Head sits at position 0 or strictly inside
its record, `seek(tell())` is an exact state no-op. -/
theorem seek_tell_noop (s : tapeimage inner_file) (fuel : Nat)
    (hv : s.valid)
    (hc : s.current.pos = 0 ∨ s.current.remaining < recLen s.index s.addr s.current.pos) :
    tapeimage.seek fileOps fuel s (tapeimage.tell s) = .ok s () := by
  obtain ⟨hne, hpos, hgap, hrem0, hremL, hfp, hzero, h32, hfirst⟩ := hv
  have hlen : 0 < s.index.length := List.length_pos.mpr hne
  have hP32 : (headerAt s.index s.current.pos).next < 4294967296 :=
    h32 _ (headerAt_mem _ _ hpos)
  have hP32i : ((headerAt s.index s.current.pos).next : Int) < 4294967296 := by
    exact_mod_cast hP32
  have hPi : (0 : Int) ≤ (s.current.pos : Int) := by positivity
  rw [tell_formula]
  have htel := next_telescope s.index hgap s.current.pos (s.index.length - 1)
    (by omega) (by omega)
  rw [show ((s.index.length - 1 : Nat) : Int) = (s.index.length : Int) - 1 by omega] at htel
  have hfp2 : s.fp.pos = ((headerAt s.index s.current.pos).next : Int) - s.current.remaining := by
    rw [hfp]
    unfold read_head.tell
    rfl
  unfold tapeimage.seek
  rw [if_neg (by omega)]
  simp only
  rw [if_pos (decide_eq_true (by
    unfold address_map.logical header.hsize
    have h3 : (12 : Int) * (1 + ((s.index.length : Int) - 1)) = 12 * (s.index.length : Int) := by
      ring
    omega))]
  unfold tapeimage.seek_with_index
  have hfind : record_index.find s.index s.addr
      (((headerAt s.index s.current.pos).next : Int) - s.current.remaining -
        12 * (1 + (s.current.pos : Int)) - s.addr.zero) s.current.pos =
      .ok s.current.pos := by
    by_cases hP0 : s.current.pos = 0
    · rw [hP0]
      by_cases hr0 : s.current.remaining = 0
      · apply find_zero_end _ _ _ hne
        · unfold address_map.logical header.hsize
          push_cast
          omega
        · intro i hi
          have := next_telescope s.index hgap 0 i (by omega) hi
          push_cast at this
          omega
      · apply find_hint_of_zero
        unfold address_map.logical header.hsize
        push_cast
        omega
    · have hrem : s.current.remaining < recLen s.index s.addr s.current.pos := by
        rcases hc with h | h
        · exact absurd h hP0
        · exact h
      unfold recLen at hrem
      rw [if_neg hP0] at hrem
      unfold header.hsize at hrem
      apply find_hint_of_pos _ _ _ _ hP0
      · unfold address_map.logical header.hsize
        omega
      · unfold address_map.logical header.hsize
        omega
  rw [hfind]
  simp only
  have hreal : s.addr.physical
      (((headerAt s.index s.current.pos).next : Int) - s.current.remaining -
        12 * (1 + (s.current.pos : Int)) - s.addr.zero) (s.current.pos : Int) =
      s.fp.pos := by
    unfold address_map.physical header.hsize
    omega
  rw [hreal]
  rw [show ((headerAt s.index s.current.pos).next : Int) - s.fp.pos = s.current.remaining
    from by omega]
  show Res.ok
      { addr := s.addr, fp := { data := s.fp.data, pos := s.fp.pos }, index := s.index,
        current := { pos := s.current.pos, remaining := s.current.remaining },
        recovery := s.recovery } () =
    Res.ok s ()
  rfl

/-- The reachable reader state after opening scenario (1) and reading 4
bytes: fully indexed, Read Head on the file-mark. -/
def c7_reach : Option (tapeimage inner_file) :=
  match lfp_tapeimage_open (some stream1) with
  | some s =>
    match tapeimage.readinto_pub fileOps 20 s 4 with
    | .ok s _ => some s
    | _ => none
  | none => none

/-- The literal value of that state. -/
def c7_s2 : tapeimage inner_file :=
  { addr := { zero := 0 }, fp := { data := stream1_data, pos := 51 },
    index := [⟨0, 0, 13⟩, ⟨0, 0, 26⟩, ⟨0, 13, 39⟩, ⟨1, 26, 51⟩],
    current := { pos := 3, remaining := 0 }, recovery := .ok }

/-- The state `seek(tell())` moves it to: the Read Head relocates to the end
of record 2 (the span convention assigns the boundary offset to the earlier
record), off the file-mark. -/
def c7_s3 : tapeimage inner_file :=
  { c7_s2 with fp := { data := stream1_data, pos := 39 },
               current := { pos := 2, remaining := 0 } }

/-- Counterexample to claim C7: a valid, reachable reader state (scenario
(1) fully read, logical position 3 at the boundary of indexed record 2)
for which `seek(tell())` is NOT a no-op — `eof()` flips from true to false,
though `tell()` is preserved. -/
theorem claim_C7_counterexample :
    c7_reach = some c7_s2 ∧
    tapeimage.valid c7_s2 ∧
    tapeimage.eof c7_s2 = true ∧
    tapeimage.seek fileOps 20 c7_s2 (tapeimage.tell c7_s2) = .ok c7_s3 () ∧
    tapeimage.eof c7_s3 = false ∧
    tapeimage.tell c7_s3 = tapeimage.tell c7_s2 := by
  refine ⟨by decide, by decide, by decide, by decide, by decide, by decide⟩

/-- Claim C7 (amended): for every valid reader state whose Read Head is at
index position 0 or strictly inside its current record
(`remaining < record body length`), `seek(tell())` leaves the reader state
exactly unchanged — hence `tell()`, `eof()` and all subsequent reads are
unchanged; at a record boundary with position ≥ 1 the head may instead
relocate to the end of the previous record (see the counterexample). And
for every `n` with `0 ≤ n` covered by the index, `tell()` immediately after
`seek(n)` equals `n`. -/
theorem claim_C7_amended :
    (∀ (s : tapeimage inner_file) (fuel : Nat),
        s.valid →
        (s.current.pos = 0 ∨ s.current.remaining < recLen s.index s.addr s.current.pos) →
        tapeimage.seek fileOps fuel s (tapeimage.tell s) = .ok s ()) ∧
    (∀ (s : tapeimage inner_file) (fuel : Nat) (n : Int),
        s.valid → 0 ≤ n →
        n ≤ s.addr.logical ((headerAt s.index (s.index.length - 1)).next : Int)
          ((s.index.length : Int) - 1) →
        match tapeimage.seek fileOps fuel s n with
        | .ok s2 _ => tapeimage.tell s2 = n
        | _ => False) :=
  ⟨fun s fuel hv hc => seek_tell_noop s fuel hv hc,
   fun s fuel n hv h0 hcov => seek_tell_covered s fuel n hv h0 hcov⟩

/-- The reader state right after opening scenario (1): one indexed record,
one payload byte left. -/
def c7_w_state : tapeimage inner_file :=
  { addr := { zero := 0 }, fp := { data := stream1_data, pos := 12 },
    index := [⟨0, 0, 13⟩], current := { pos := 0, remaining := 1 }, recovery := .ok }

/-- Witness for C7 (amended): on the freshly opened scenario-(1) reader,
`seek(tell())` returns the state unchanged, and `tell()` after `seek(0)`
is 0. -/
theorem claim_C7_witness :
    tapeimage.seek fileOps 1 c7_w_state (tapeimage.tell c7_w_state) = .ok c7_w_state () ∧
    (match tapeimage.seek fileOps 1 c7_w_state 0 with
     | .ok s2 _ => tapeimage.tell s2 = 0
     | _ => False) :=
  ⟨claim_C7_amended.1 c7_w_state 1 (by decide) (Or.inl rfl),
   claim_C7_amended.2 c7_w_state 1 0 (by decide) (by decide) (by decide)⟩
